import Mathlib

/-!
Shallow embedding of the Scarlett-OS user-space services that the
specification's claims talk about, together with proofs settling each
claim.  Every definition is translated from the Rust sources under
`src/`; machine integers are modelled as `Nat` (with an explicit
`% 2^32` where an overflowing increment occurs in the source), byte
strings as `List Nat`, fixed-size arrays as lists of the array's
length, and fallible operations as `Option`.
-/

set_option maxRecDepth 40000

namespace Scarlett

/-! ## Generic plumbing shared by the embeddings

`firstIdx` models the ubiquitous Rust idiom
`for i in 0..N { if cond(arr[i]) { return Some(i) } }`, and
`listModify` models an in-place update of a single array slot.
-/

/-- Index of the first element satisfying `p`, as the Rust scan loops do. -/
def firstIdx (p : α → Bool) : List α → Option Nat
  | [] => none
  | a :: as => if p a then some 0 else (firstIdx p as).map (· + 1)

/-- In-place update of slot `n` (no-op when `n` is out of range). -/
def listModify (f : α → α) : Nat → List α → List α
  | _, [] => []
  | 0, a :: as => f a :: as
  | n + 1, a :: as => a :: listModify f n as

theorem firstIdx_nil (p : α → Bool) : firstIdx p [] = none := rfl

theorem firstIdx_cons (p : α → Bool) (a : α) (as : List α) :
    firstIdx p (a :: as) =
      if p a then some 0 else (firstIdx p as).map (· + 1) := rfl

theorem firstIdx_eq_none {p : α → Bool} {l : List α} :
    firstIdx p l = none ↔ ∀ a ∈ l, p a = false := by
  induction l with
  | nil => simp [firstIdx]
  | cons a as ih =>
    by_cases h : p a
    · simp [firstIdx, h]
    · simp [firstIdx, h, Option.map_eq_none', ih]

theorem firstIdx_some_spec {p : α → Bool} {l : List α} {i : Nat} (d : α)
    (h : firstIdx p l = some i) :
    i < l.length ∧ p (l.getD i d) = true ∧
      ∀ j, j < i → p (l.getD j d) = false := by
  induction l generalizing i with
  | nil => simp [firstIdx] at h
  | cons a as ih =>
    by_cases ha : p a
    · simp [firstIdx, ha] at h
      subst h
      refine ⟨by simp, by simpa using ha, ?_⟩
      intro j hj; omega
    · simp [firstIdx, ha] at h
      obtain ⟨i', hi', rfl⟩ := h
      obtain ⟨h1, h2, h3⟩ := ih hi'
      refine ⟨by simpa using h1, by simpa using h2, ?_⟩
      intro j hj
      cases j with
      | zero => simpa using ha
      | succ j' => simpa using h3 j' (by omega)

theorem listModify_length (f : α → α) (n : Nat) (l : List α) :
    (listModify f n l).length = l.length := by
  induction l generalizing n with
  | nil => cases n <;> rfl
  | cons a as ih =>
    cases n with
    | zero => simp [listModify]
    | succ n' => simp [listModify, ih]

theorem listModify_getD (f : α → α) (n : Nat) (l : List α) (d : α) (j : Nat)
    (hj : j < l.length) :
    (listModify f n l).getD j d = if j = n then f (l.getD n d) else l.getD j d := by
  induction l generalizing n j with
  | nil => simp at hj
  | cons a as ih =>
    cases n with
    | zero =>
      cases j with
      | zero => simp [listModify]
      | succ j' => simp [listModify]
    | succ n' =>
      cases j with
      | zero => simp [listModify]
      | succ j' =>
        simp only [listModify, List.getD_cons_succ]
        rw [ih n' j' (by simpa using hj)]
        simp

/-! ## Driver manager (`src/services/driver_manager/src/main.rs`)

States, registration records and the crash handler.  The crash handler
`handle_driver_crash` finds the crashed driver by id, marks it
`Crashed`, bumps its crash counter (a `u32`, hence the `% 2^32`), and
when the new counter is still below 3 it emits a restart request (an
IPC message to the process manager carrying the driver's pid) and
resets the state to `Registered`.  The emitted restart request is
modelled as the `Option Nat` component of the result (`some pid` when
`sys_ipc_send` is invoked, `none` otherwise). -/

namespace DriverMgr

inductive DriverType
  | PciBus | Storage | Network | Input | Graphics | Audio | Unknown
  deriving DecidableEq, Repr

inductive DriverState
  | Registered | Running | Crashed | Stopped
  deriving DecidableEq, Repr

structure RegisteredDriver where
  driver_id : Nat
  driver_type : DriverType
  driver_port : Nat
  driver_pid : Nat
  state : DriverState
  crash_count : Nat
  deriving DecidableEq, Repr

structure DriverManager where
  drivers : List RegisteredDriver
  next_driver_id : Nat
  deriving DecidableEq, Repr

def DriverManager.new : DriverManager :=
  { drivers := [], next_driver_id := 1 }

def register_driver (m : DriverManager) (ty : DriverType) (port pid : Nat) :
    DriverManager × Nat :=
  let driver_id := m.next_driver_id
  ({ m with
      next_driver_id := (m.next_driver_id + 1) % 2 ^ 32,
      drivers := m.drivers ++
        [{ driver_id := driver_id, driver_type := ty, driver_port := port,
           driver_pid := pid, state := DriverState.Registered, crash_count := 0 }] },
   driver_id)

/-- The update applied to the crashed driver, paired with the restart
request sent to the process manager's port (if any). -/
def crashUpdate (d : RegisteredDriver) : RegisteredDriver × Option Nat :=
  let d1 := { d with state := DriverState.Crashed,
                     crash_count := (d.crash_count + 1) % 2 ^ 32 }
  if d1.crash_count < 3 then
    ({ d1 with state := DriverState.Registered }, some d.driver_pid)
  else
    (d1, none)

def handleCrashList : List RegisteredDriver → Nat → List RegisteredDriver × Option Nat
  | [], _ => ([], none)
  | d :: ds, did =>
    if d.driver_id = did then
      let (d2, req) := crashUpdate d
      (d2 :: ds, req)
    else
      let (ds2, req) := handleCrashList ds did
      (d :: ds2, req)

def handle_driver_crash (m : DriverManager) (did : Nat) :
    DriverManager × Option Nat :=
  let (ds, req) := handleCrashList m.drivers did
  ({ m with drivers := ds }, req)

/-- State of the driver with id `did` (first match, as the Rust scan). -/
def driverState (m : DriverManager) (did : Nat) : Option DriverState :=
  (m.drivers.find? (fun d => d.driver_id == did)).map (·.state)

def driverCrashCount (m : DriverManager) (did : Nat) : Option Nat :=
  (m.drivers.find? (fun d => d.driver_id == did)).map (·.crash_count)

theorem handleCrashList_spec (pre post : List RegisteredDriver)
    (d : RegisteredDriver) (did : Nat)
    (hpre : ∀ e ∈ pre, e.driver_id ≠ did) (hd : d.driver_id = did) :
    handleCrashList (pre ++ d :: post) did =
      (pre ++ (crashUpdate d).1 :: post, (crashUpdate d).2) := by
  induction pre with
  | nil =>
    simp [handleCrashList, hd]
  | cons e pre ih =>
    have he : e.driver_id ≠ did := hpre e (by simp)
    have ih' := ih (fun x hx => hpre x (by simp [hx]))
    simp only [List.cons_append, handleCrashList, if_neg he, List.append_eq, ih']

/-- A concrete driver as registered by `register_driver` on a fresh manager. -/
def c1Driver : RegisteredDriver :=
  { driver_id := 1, driver_type := DriverType.Storage, driver_port := 50,
    driver_pid := 77, state := DriverState.Registered, crash_count := 0 }

def c1M1 : DriverManager := (register_driver DriverManager.new DriverType.Storage 50 77).1

def c1S1 : DriverManager × Option Nat := handle_driver_crash c1M1 1

def c1S2 : DriverManager × Option Nat := handle_driver_crash c1S1.1 1

def c1S3 : DriverManager × Option Nat := handle_driver_crash c1S2.1 1

end DriverMgr

end Scarlett

namespace Scarlett.DriverMgr

/-- C1 counterexample: register a fresh driver (id 1, pid 77) and deliver
three `DRIVER_CRASHED` signals.  The first two crashes each produce a
restart request, but the third produces **no** restart request and leaves
the driver in state `Crashed` with crash counter 3 — refuting the claim
that each of the first three crashes triggers a restart and that only a
fourth crash is left unrestarted. -/
theorem c1_third_crash_not_restarted :
    c1S1.2 = some 77 ∧ c1S2.2 = some 77 ∧ c1S3.2 = none ∧
      driverState c1S3.1 1 = some DriverState.Crashed ∧
      driverCrashCount c1S3.1 1 = some 3 := by
  decide

/-- C1 (amended): each `DRIVER_CRASHED` signal for a registered driver
increments its crash counter (a wrapping `u32`); while the incremented
counter is still below 3 (i.e. on the first **two** crashes) the manager
sends a restart request carrying the driver's pid to the process manager
and resets the state to `Registered`; from the third crash on (counter
≥ 3) the driver is left in state `Crashed` and no restart is requested. -/
theorem c1_crash_restart_budget (m : DriverManager)
    (pre post : List RegisteredDriver) (d : RegisteredDriver) (did : Nat)
    (hm : m.drivers = pre ++ d :: post)
    (hpre : ∀ e ∈ pre, e.driver_id ≠ did) (hd : d.driver_id = did) :
    (handle_driver_crash m did).1.drivers =
        pre ++ ({ d with
          state := if (d.crash_count + 1) % 2 ^ 32 < 3 then
              DriverState.Registered else DriverState.Crashed,
          crash_count := (d.crash_count + 1) % 2 ^ 32 }) :: post ∧
      (handle_driver_crash m did).2 =
        (if (d.crash_count + 1) % 2 ^ 32 < 3 then some d.driver_pid else none) := by
  have h := handleCrashList_spec pre post d did hpre hd
  have hcu : crashUpdate d =
      ({ d with
          state := if (d.crash_count + 1) % 2 ^ 32 < 3 then
              DriverState.Registered else DriverState.Crashed,
          crash_count := (d.crash_count + 1) % 2 ^ 32 },
        if (d.crash_count + 1) % 2 ^ 32 < 3 then some d.driver_pid else none) := by
    unfold crashUpdate
    by_cases hlt : (d.crash_count + 1) % 4294967296 < 3 <;> simp [hlt]
  constructor
  · simp [handle_driver_crash, hm, h, hcu]
  · simp [handle_driver_crash, hm, h, hcu]

/-- Witness for `c1_crash_restart_budget` at the concrete one-driver
manager `c1M1` (fresh driver, crash counter 0): the crash yields a
restart request for pid 77 and a `Registered` driver with counter 1. -/
theorem c1_crash_restart_budget_witness :
    (handle_driver_crash c1M1 1).1.drivers =
        [] ++ ({ c1Driver with
          state := if (c1Driver.crash_count + 1) % 2 ^ 32 < 3 then
              DriverState.Registered else DriverState.Crashed,
          crash_count := (c1Driver.crash_count + 1) % 2 ^ 32 }) :: [] ∧
      (handle_driver_crash c1M1 1).2 =
        (if (c1Driver.crash_count + 1) % 2 ^ 32 < 3 then some c1Driver.driver_pid
          else none) :=
  c1_crash_restart_budget c1M1 [] [] c1Driver 1 (by decide)
    (by simp) (by decide)

end Scarlett.DriverMgr

/-! ## Capability system (`src/services/security/src/capability.rs`)

Capabilities, per-process tables (4096 fixed slots), delegation and the
manager-level `check`.  `Capability::new` draws a fresh id from a global
atomic and a timestamp from a syscall; the claims only concern
explicitly constructed capability records, so records are built
directly. -/

namespace Scarlett.Security

inductive CapabilityType
  | FileRead | FileWrite | FileExecute | FileDelete | DirectoryCreate | DirectoryList
  | NetworkSend | NetworkReceive | NetworkBind | NetworkListen
  | DeviceRead | DeviceWrite | DeviceControl
  | ProcessCreate | ProcessKill | ProcessDebug
  | MemoryAllocate | MemoryMap | MemoryDMA
  | IpcSend | IpcReceive | IpcCreatePort
  | SystemShutdown | SystemReboot | SystemTime
  | HardwareMMIO | HardwareIRQ | HardwareDMA
  deriving DecidableEq, BEq, Repr

structure Capability where
  id : Nat
  cap_type : CapabilityType
  resource_id : Nat
  permissions : Nat
  owner_pid : Nat
  timestamp : Nat
  expiration : Nat
  delegation_depth : Nat
  flags : Nat
  deriving DecidableEq, Repr

def Capability.has_permission (c : Capability) (permission : Nat) : Bool :=
  c.permissions &&& permission ≠ 0

def Capability.attenuate (c : Capability) (new_permissions : Nat) : Capability :=
  { c with permissions := c.permissions &&& new_permissions }

def Capability.delegate (c : Capability) (target_pid : Nat) : Option Capability :=
  if c.delegation_depth = 0 then
    none
  else
    some { c with owner_pid := target_pid,
                  delegation_depth := c.delegation_depth - 1 }

def Capability.is_expired (c : Capability) (current_time : Nat) : Bool :=
  if c.expiration = 0 then false else current_time ≥ c.expiration

structure CapabilityEntry where
  capability : Capability
  valid : Bool
  deriving DecidableEq, Repr

def MAX_CAPABILITIES : Nat := 4096

def emptyCapabilityEntry : CapabilityEntry :=
  { capability :=
      { id := 0, cap_type := CapabilityType.FileRead, resource_id := 0,
        permissions := 0, owner_pid := 0, timestamp := 0, expiration := 0,
        delegation_depth := 0, flags := 0 },
    valid := false }

structure CapabilityTable where
  entries : List CapabilityEntry
  count : Nat
  deriving DecidableEq, Repr

def CapabilityTable.new : CapabilityTable :=
  { entries := List.replicate MAX_CAPABILITIES emptyCapabilityEntry, count := 0 }

/-- Rust `CapabilityTable::add`: first invalid slot receives the capability;
the table-full case is the `none` result. -/
def CapabilityTable.add (t : CapabilityTable) (cap : Capability) :
    Option (CapabilityTable × Nat) :=
  match Scarlett.firstIdx (fun e => !e.valid) t.entries with
  | none => none
  | some i =>
    some ({ entries := Scarlett.listModify
              (fun _ => { capability := cap, valid := true }) i t.entries,
            count := t.count + 1 }, i)

def CapabilityTable.get (t : CapabilityTable) (cap_idx : Nat) : Option Capability :=
  if cap_idx ≥ MAX_CAPABILITIES then none
  else
    let e := t.entries.getD cap_idx emptyCapabilityEntry
    if e.valid then some e.capability else none

/-- Rust `CapabilityTable::find`: index of the first **valid** entry matching
the type and resource id.  Expiration plays no part here. -/
def CapabilityTable.find (t : CapabilityTable) (ct : CapabilityType) (rid : Nat) :
    Option Nat :=
  Scarlett.firstIdx
    (fun e => e.valid && (e.capability.cap_type == ct) && (e.capability.resource_id == rid))
    t.entries

structure CapabilityManager where
  process_tables : List (Option CapabilityTable)

def CapabilityManager.new : CapabilityManager :=
  { process_tables := List.replicate 256 none }

def CapabilityManager.init_process (m : CapabilityManager) (pid : Nat) :
    Option CapabilityManager :=
  if pid ≥ 256 then none
  else some { process_tables := m.process_tables.set pid (some CapabilityTable.new) }

def CapabilityManager.grant (m : CapabilityManager) (pid : Nat) (cap : Capability) :
    Option (CapabilityManager × Nat) :=
  if pid ≥ 256 then none
  else
    match m.process_tables.getD pid none with
    | none => none
    | some t =>
      match t.add cap with
      | none => none
      | some (t', i) =>
        some ({ process_tables := m.process_tables.set pid (some t') }, i)

/-- Rust `CapabilityManager::check`: true iff `find` locates a matching valid
entry.  The current time is not consulted. -/
def CapabilityManager.check (m : CapabilityManager) (pid : Nat)
    (ct : CapabilityType) (rid : Nat) : Bool :=
  if pid ≥ 256 then false
  else
    match m.process_tables.getD pid none with
    | none => false
    | some t => (t.find ct rid).isSome

/-- A chain of delegations, one per target pid, stopping at the first
failure — the iterated form of `Capability::delegate`. -/
def delegateChain (c : Capability) : List Nat → Option Capability
  | [] => some c
  | p :: ps =>
    match c.delegate p with
    | none => none
    | some c' => delegateChain c' ps

/-- The capability used for the expired-capability scenario: resource 5
of type `FileRead`, expiration time 1 (nonzero, already in the past at
time 10). -/
def c4Cap : Capability :=
  { id := 1, cap_type := CapabilityType.FileRead, resource_id := 5,
    permissions := 0xFFFFFFFFFFFFFFFF, owner_pid := 0, timestamp := 0,
    expiration := 1, delegation_depth := 3, flags := 0 }

def c4Mgr1 : CapabilityManager :=
  (CapabilityManager.new.init_process 0).getD CapabilityManager.new

def c4Grant : Option (CapabilityManager × Nat) := c4Mgr1.grant 0 c4Cap

def c4Mgr2 : CapabilityManager :=
  (c4Grant.map Prod.fst).getD CapabilityManager.new

/-- C4: `CapabilityManager::check` never consults expiration.  Process 0
holds exactly one capability matching `(FileRead, 5)`; it has nonzero
expiration 1 ≤ current time 10 (`is_expired` is true), yet `check`
returns `true` — the expired capability is **not** treated as absent.
`find`/`check` never call `is_expired`. -/
theorem c4_expired_capability_passes_check :
    c4Grant.isSome = true ∧
      Capability.is_expired c4Cap 10 = true ∧
      CapabilityManager.check c4Mgr2 0 CapabilityType.FileRead 5 = true := by
  refine ⟨by decide, by decide, ?_⟩
  decide

/-- C5: delegation depth bookkeeping.  A chain of `k` successful
delegations yields depth `original − k` (and can only succeed when
`k ≤ original`); every single successful delegation strictly decreases
the depth; and a delegation attempted at depth 0 fails, producing no
capability. -/
theorem c5_delegation_depth :
    (∀ (c : Capability) (pids : List Nat) (c' : Capability),
        delegateChain c pids = some c' →
          c'.delegation_depth = c.delegation_depth - pids.length ∧
            pids.length ≤ c.delegation_depth) ∧
      (∀ (c : Capability) (p : Nat) (c' : Capability),
        c.delegate p = some c' →
          c'.delegation_depth < c.delegation_depth) ∧
      (∀ (c : Capability) (p : Nat),
        c.delegation_depth = 0 → c.delegate p = none) := by
  refine ⟨?_, ?_, ?_⟩
  · intro c pids
    induction pids generalizing c with
    | nil =>
      intro c' h
      simp [delegateChain] at h
      subst h
      simp
    | cons p ps ih =>
      intro c' h
      simp only [delegateChain, Capability.delegate] at h
      by_cases hz : c.delegation_depth = 0
      · simp [hz] at h
      · simp only [if_neg hz] at h
        obtain ⟨h1, h2⟩ := ih _ _ h
        simp only [List.length_cons]
        constructor
        · rw [h1]; simp; omega
        · simp at h2 ⊢; omega
  · intro c p c' h
    simp only [Capability.delegate] at h
    by_cases hz : c.delegation_depth = 0
    · simp [hz] at h
    · simp only [if_neg hz] at h
      cases h
      simp
      omega
  · intro c p hz
    simp [Capability.delegate, hz]

/-- Capability with full delegation budget used in the C5 witness. -/
def c5Cap : Capability :=
  { id := 2, cap_type := CapabilityType.NetworkSend, resource_id := 9,
    permissions := 0xFFFFFFFFFFFFFFFF, owner_pid := 1, timestamp := 0,
    expiration := 0, delegation_depth := 3, flags := 0 }

/-- Result of delegating `c5Cap` to pid 8 and then pid 9. -/
def c5Res : Capability :=
  { c5Cap with owner_pid := 9, delegation_depth := 1 }

/-- Capability whose delegation budget is exhausted. -/
def c5Zero : Capability := { c5Cap with delegation_depth := 0 }

theorem c5_delegation_depth_witness :
    (c5Res.delegation_depth = c5Cap.delegation_depth - ([8, 9] : List Nat).length ∧
        ([8, 9] : List Nat).length ≤ c5Cap.delegation_depth) ∧
      c5Zero.delegate 4 = none :=
  ⟨c5_delegation_depth.1 c5Cap [8, 9] c5Res (by decide),
   c5_delegation_depth.2.2 c5Zero 4 (by decide)⟩

/-! ## Sandboxing (`src/services/security/src/sandbox.rs`)

`SandboxConfig` keeps sixteen 256-byte path slots; `add_allowed_path`
copies at most 255 bytes of the path into the next slot, leaving the
zero padding in place.  `check_path_allowed` runs
`core::str::from_utf8` over the **whole 256-byte slot** (`unwrap_or("")`
on invalid UTF-8) and then asks whether the queried path starts with
that string.  Byte strings are `List Nat`; `str::starts_with` on valid
UTF-8 strings is byte-prefix, modelled with `List.isPrefixOf`. -/

/-- Strict UTF-8 validity as checked by `core::str::from_utf8`
(RFC 3629: no overlong forms, no surrogates, limit U+10FFFF). -/
def utf8Valid : List Nat → Bool
  | [] => true
  | b :: rest =>
    if b ≤ 0x7F then utf8Valid rest
    else if 0xC2 ≤ b && b ≤ 0xDF then
      match rest with
      | c1 :: r => (0x80 ≤ c1 && c1 ≤ 0xBF) && utf8Valid r
      | _ => false
    else if b = 0xE0 then
      match rest with
      | c1 :: c2 :: r =>
        (0xA0 ≤ c1 && c1 ≤ 0xBF) && (0x80 ≤ c2 && c2 ≤ 0xBF) && utf8Valid r
      | _ => false
    else if (0xE1 ≤ b && b ≤ 0xEC) || (0xEE ≤ b && b ≤ 0xEF) then
      match rest with
      | c1 :: c2 :: r =>
        (0x80 ≤ c1 && c1 ≤ 0xBF) && (0x80 ≤ c2 && c2 ≤ 0xBF) && utf8Valid r
      | _ => false
    else if b = 0xED then
      match rest with
      | c1 :: c2 :: r =>
        (0x80 ≤ c1 && c1 ≤ 0x9F) && (0x80 ≤ c2 && c2 ≤ 0xBF) && utf8Valid r
      | _ => false
    else if b = 0xF0 then
      match rest with
      | c1 :: c2 :: c3 :: r =>
        (0x90 ≤ c1 && c1 ≤ 0xBF) && (0x80 ≤ c2 && c2 ≤ 0xBF) &&
          (0x80 ≤ c3 && c3 ≤ 0xBF) && utf8Valid r
      | _ => false
    else if 0xF1 ≤ b && b ≤ 0xF3 then
      match rest with
      | c1 :: c2 :: c3 :: r =>
        (0x80 ≤ c1 && c1 ≤ 0xBF) && (0x80 ≤ c2 && c2 ≤ 0xBF) &&
          (0x80 ≤ c3 && c3 ≤ 0xBF) && utf8Valid r
      | _ => false
    else if b = 0xF4 then
      match rest with
      | c1 :: c2 :: c3 :: r =>
        (0x80 ≤ c1 && c1 ≤ 0x8F) && (0x80 ≤ c2 && c2 ≤ 0xBF) &&
          (0x80 ≤ c3 && c3 ≤ 0xBF) && utf8Valid r
      | _ => false
    else false

structure SandboxConfig where
  allowed_paths : List (List Nat)
  path_count : Nat
  allowed_networks : List Nat
  network_count : Nat
  allowed_devices : List Nat
  device_count : Nat
  memory_limit : Nat
  cpu_limit : Nat
  fd_limit : Nat
  bandwidth_limit : Nat
  can_fork : Bool
  can_exec : Bool
  can_network : Bool
  can_hardware : Bool

def SandboxConfig.new_default : SandboxConfig :=
  { allowed_paths := List.replicate 16 (List.replicate 256 0),
    path_count := 0,
    allowed_networks := List.replicate 16 0, network_count := 0,
    allowed_devices := List.replicate 16 0, device_count := 0,
    memory_limit := 512 * 1024 * 1024,
    cpu_limit := 60 * 1000000,
    fd_limit := 256,
    bandwidth_limit := 10 * 1024 * 1024,
    can_fork := false, can_exec := false,
    can_network := false, can_hardware := false }

def SandboxConfig.new_permissive : SandboxConfig :=
  { allowed_paths := List.replicate 16 (List.replicate 256 0),
    path_count := 0,
    allowed_networks := List.replicate 16 0, network_count := 0,
    allowed_devices := List.replicate 16 0, device_count := 0,
    memory_limit := 2 ^ 64 - 1,
    cpu_limit := 2 ^ 64 - 1,
    fd_limit := 4096,
    bandwidth_limit := 2 ^ 64 - 1,
    can_fork := true, can_exec := true,
    can_network := true, can_hardware := true }

def SandboxConfig.add_allowed_path (cfg : SandboxConfig) (path : List Nat) :
    Option SandboxConfig :=
  if cfg.path_count ≥ 16 then none
  else
    let len := min path.length 255
    let slot := cfg.allowed_paths.getD cfg.path_count (List.replicate 256 0)
    let slot' := path.take len ++ slot.drop len
    some { cfg with
      allowed_paths := cfg.allowed_paths.set cfg.path_count slot',
      path_count := cfg.path_count + 1 }

def SandboxConfig.check_path_allowed (cfg : SandboxConfig) (path : List Nat) : Bool :=
  (cfg.allowed_paths.take cfg.path_count).any fun slot =>
    let allowed := if utf8Valid slot then slot else []
    allowed.isPrefixOf path

structure Sandbox where
  pid : Nat
  config : SandboxConfig
  capabilities : CapabilityTable
  memory_used : Nat
  cpu_used : Nat
  fd_count : Nat
  bandwidth_used : Nat

def Sandbox.new (pid : Nat) (config : SandboxConfig) : Sandbox :=
  { pid := pid, config := config, capabilities := CapabilityTable.new,
    memory_used := 0, cpu_used := 0, fd_count := 0, bandwidth_used := 0 }

/-- Rust `Sandbox::check_resource_access`: dispatch on the resource-type
string; `file` consults only the path allow-list, the other four
consult only the corresponding permission boolean. -/
def Sandbox.check_resource_access (sb : Sandbox) (resource_type : String)
    (resource_id : List Nat) : Bool :=
  if resource_type = "file" then sb.config.check_path_allowed resource_id
  else if resource_type = "network" then sb.config.can_network
  else if resource_type = "device" then sb.config.can_hardware
  else if resource_type = "fork" then sb.config.can_fork
  else if resource_type = "exec" then sb.config.can_exec
  else false

structure SandboxManager where
  sandboxes : List (Option Sandbox)

def SandboxManager.new : SandboxManager :=
  { sandboxes := List.replicate 256 none }

def SandboxManager.create_sandbox (m : SandboxManager) (pid : Nat)
    (config : SandboxConfig) : Option SandboxManager :=
  if pid ≥ 256 then none
  else some { sandboxes := m.sandboxes.set pid (some (Sandbox.new pid config)) }

def SandboxManager.get_sandbox (m : SandboxManager) (pid : Nat) : Option Sandbox :=
  if pid ≥ 256 then none else m.sandboxes.getD pid none

def SandboxManager.check_access (m : SandboxManager) (pid : Nat)
    (resource_type : String) (resource_id : List Nat) : Bool :=
  match m.get_sandbox pid with
  | some sb => sb.check_resource_access resource_type resource_id
  | none => false

/-- Configuration of the C2 scenario: restricted default with `/tmp`
(bytes `[47, 116, 109, 112]`) added to the allowed paths. -/
def c2Cfg : SandboxConfig :=
  (SandboxConfig.new_default.add_allowed_path [47, 116, 109, 112]).getD
    SandboxConfig.new_default

def c2Mgr : SandboxManager :=
  (SandboxManager.new.create_sandbox 7 c2Cfg).getD SandboxManager.new

/-- C2: sandbox for pid 7, restricted default, `/tmp` allowed.  The
claim (and the spec's acceptance test) expects
`CHECK_ACCESS(7, file, "/tmp/x") = true`, but the code yields `false`:
`check_path_allowed` feeds the **whole 256-byte slot** to
`from_utf8`, and NUL bytes are valid UTF-8, so the stored prefix is
`"/tmp"` followed by 252 NULs — no 6-byte path can start with it.  The
two accesses the claim expects to be denied are indeed denied. -/
theorem c2_tmp_access_wrongly_denied :
    (SandboxConfig.new_default.add_allowed_path [47, 116, 109, 112]).isSome = true ∧
      (SandboxManager.new.create_sandbox 7 c2Cfg).isSome = true ∧
      c2Mgr.check_access 7 "file" [47, 116, 109, 112, 47, 120] = false ∧
      c2Mgr.check_access 7 "file"
        [47, 101, 116, 99, 47, 112, 97, 115, 115, 119, 100] = false ∧
      c2Mgr.check_access 7 "network" [] = false := by
  refine ⟨by decide, by decide, ?_, ?_, by decide⟩ <;> decide

/-- Restricted default except that the network boolean is switched on;
the network allow-list stays empty. -/
def c3Cfg : SandboxConfig :=
  { SandboxConfig.new_default with can_network := true }

def c3Mgr : SandboxManager :=
  (SandboxManager.new.create_sandbox 3 c3Cfg).getD SandboxManager.new

/-- C3 counterexample: with `can_network = true` and an **empty**
network allow-list, `CHECK_ACCESS(3, network, "")` returns `true` — the
permission boolean alone suffices, refuting the claim that access is
granted only when the resource is in the allow-list **and** the boolean
is set. -/
theorem c3_boolean_alone_grants_network :
    c3Cfg.network_count = 0 ∧
      c3Mgr.check_access 3 "network" [] = true := by
  constructor <;> decide

/-- C3 (amended): `CHECK_ACCESS` grants by a single per-type condition,
not a conjunction: `file` requires only that the path allow-list has a
matching prefix entry, while `network`/`device`/`fork`/`exec` require
only the corresponding boolean (`can_network`/`can_hardware`/
`can_fork`/`can_exec`); any other type, or an absent sandbox, denies. -/
theorem c3_check_access_per_type (m : SandboxManager) (pid : Nat)
    (rt : String) (rid : List Nat) :
    m.check_access pid rt rid = true ↔
      ∃ sb, m.get_sandbox pid = some sb ∧
        ((rt = "file" ∧ sb.config.check_path_allowed rid = true) ∨
          (rt = "network" ∧ sb.config.can_network = true) ∨
          (rt = "device" ∧ sb.config.can_hardware = true) ∨
          (rt = "fork" ∧ sb.config.can_fork = true) ∨
          (rt = "exec" ∧ sb.config.can_exec = true)) := by
  unfold SandboxManager.check_access
  cases h : m.get_sandbox pid with
  | none => simp
  | some sb =>
    simp only [Option.some.injEq]
    unfold Sandbox.check_resource_access
    by_cases h1 : rt = "file"
    · subst h1; simp
    · by_cases h2 : rt = "network"
      · subst h2; simp
      · by_cases h3 : rt = "device"
        · subst h3; simp
        · by_cases h4 : rt = "fork"
          · subst h4; simp
          · by_cases h5 : rt = "exec"
            · subst h5; simp
            · simp [h1, h2, h3, h4, h5]

end Scarlett.Security

/-! ## TCP (`src/services/network/src/tcp.rs`)

The connection table and the state-machine part of
`tcp_handle_packet`.  A received segment is parsed into a `TcpHeader`
overlay; the handler locates the matching connection by
(local port, remote ip, remote port) and updates it according to the
`match conn.state` block.  Header fields are modelled at struct
granularity (the claims do not depend on the byte layout). -/

namespace Scarlett.Tcp

def TCP_FLAG_FIN : Nat := 0x01
def TCP_FLAG_SYN : Nat := 0x02
def TCP_FLAG_RST : Nat := 0x04
def TCP_FLAG_PSH : Nat := 0x08
def TCP_FLAG_ACK : Nat := 0x10
def TCP_FLAG_URG : Nat := 0x20

structure TcpHeader where
  src_port : Nat
  dest_port : Nat
  seq_number : Nat
  ack_number : Nat
  data_offset : Nat
  flags : Nat
  window_size : Nat
  checksum : Nat
  urgent_ptr : Nat
  deriving DecidableEq, Repr

inductive TcpState
  | Closed | Listen | SynSent | SynReceived | Established
  | FinWait1 | FinWait2 | CloseWait | Closing | LastAck | TimeWait
  deriving DecidableEq, Repr

structure TcpConnection where
  local_ip : Nat
  remote_ip : Nat
  local_port : Nat
  remote_port : Nat
  state : TcpState
  seq_num : Nat
  ack_num : Nat
  window_size : Nat
  deriving DecidableEq, Repr

/-- The `match conn.state` block of `tcp_handle_packet`: the only
transitions are SynSent → Established on SYN+ACK and
Established → CloseWait on FIN; every other state falls through
unchanged. -/
def tcp_conn_step (conn : TcpConnection) (h : TcpHeader) : TcpConnection :=
  match conn.state with
  | TcpState.SynSent =>
    if h.flags &&& TCP_FLAG_SYN ≠ 0 && h.flags &&& TCP_FLAG_ACK ≠ 0 then
      { conn with state := TcpState.Established,
                  ack_num := (h.seq_number + 1) % 2 ^ 32 }
    else conn
  | TcpState.Established =>
    if h.flags &&& TCP_FLAG_FIN ≠ 0 then
      { conn with state := TcpState.CloseWait }
    else if h.flags &&& TCP_FLAG_ACK ≠ 0 then
      { conn with ack_num := h.seq_number }
    else conn
  | _ => conn

/-- Rust `tcp_handle_packet` at the connection-table level: find the first
connection matching the segment's endpoints and update it. -/
def tcp_handle_packet (conns : List (Option TcpConnection)) (h : TcpHeader)
    (src_ip : Nat) : List (Option TcpConnection) :=
  match Scarlett.firstIdx
      (fun oc => match oc with
        | some c => (c.local_port == h.dest_port) && (c.remote_ip == src_ip) &&
            (c.remote_port == h.src_port)
        | none => false) conns with
  | some i =>
    Scarlett.listModify (fun oc => oc.map (fun c => tcp_conn_step c h)) i conns
  | none => conns

/-- A connection mid-handshake used in the C6 counterexample. -/
def c6Conn : TcpConnection :=
  { local_ip := 1, remote_ip := 9, local_port := 80, remote_port := 1234,
    state := TcpState.SynSent, seq_num := 100, ack_num := 0,
    window_size := 65535 }

/-- A segment for that connection carrying exactly the RST flag. -/
def c6RstHeader : TcpHeader :=
  { src_port := 1234, dest_port := 80, seq_number := 555, ack_number := 0,
    data_offset := 0x50, flags := TCP_FLAG_RST, window_size := 0,
    checksum := 0, urgent_ptr := 0 }

/-- C6 counterexample: the connection table holds one connection in
`SynSent`; a matching segment with the RST flag set is processed, and
the connection stays in `SynSent` — it is **not** moved to `Closed`.
`tcp_handle_packet` never tests `TCP_FLAG_RST`. -/
theorem c6_rst_does_not_close :
    tcp_handle_packet [some c6Conn] c6RstHeader 9 = [some c6Conn] ∧
      c6RstHeader.flags &&& TCP_FLAG_RST ≠ 0 ∧
      c6Conn.state ≠ TcpState.Closed := by
  refine ⟨by decide, by decide, by decide⟩

/-- C6 (amended): processing a received segment never moves a
connection into `Closed` — the RST flag (like every flag other than
SYN+ACK in `SynSent` and FIN in `Established`) is ignored by the state
machine, so after `tcp_conn_step` the state is `Closed` exactly when it
already was `Closed` before the segment arrived. -/
theorem c6_step_closed_iff (conn : TcpConnection) (h : TcpHeader) :
    (tcp_conn_step conn h).state = TcpState.Closed ↔
      conn.state = TcpState.Closed := by
  cases hs : conn.state
  case SynSent =>
    simp only [tcp_conn_step, hs]
    split <;> simp [hs]
  case Established =>
    simp only [tcp_conn_step, hs]
    split
    · simp [hs]
    · split <;> simp [hs]
  all_goals simp [tcp_conn_step, hs]

end Scarlett.Tcp

/-! ## Driver-framework IPC messages (`src/drivers/framework/src/ipc.rs`)

The message struct carries a 64-byte inline array plus an out-of-line
buffer descriptor (pointer + size; the null pointer is 0).
`set_inline_data` copies `min(len, 64)` bytes into the inline array and
records that as `inline_size`; it never touches the out-of-line
descriptor. -/

namespace Scarlett.Ipc

structure IpcMessage where
  sender_tid : Nat
  msg_id : Nat
  msg_type : Nat
  inline_size : Nat
  inline_data : List Nat
  buffer : Nat
  buffer_size : Nat
  deriving DecidableEq, Repr

def IPC_MSG_DATA : Nat := 0
def IPC_MSG_REQUEST : Nat := 1
def IPC_MSG_RESPONSE : Nat := 2
def IPC_MSG_NOTIFICATION : Nat := 3

def IpcMessage.new : IpcMessage :=
  { sender_tid := 0, msg_id := 0, msg_type := IPC_MSG_REQUEST,
    inline_size := 0, inline_data := List.replicate 64 0,
    buffer := 0, buffer_size := 0 }

def IpcMessage.set_inline_data (m : IpcMessage) (data : List Nat) : IpcMessage :=
  let len := min data.length 64
  { m with inline_data := data.take len ++ m.inline_data.drop len,
           inline_size := len }

def IpcMessage.get_inline_data (m : IpcMessage) : List Nat :=
  m.inline_data.take m.inline_size

/-- A 65-byte payload whose last byte (value 2) makes truncation
observable. -/
def c7Payload : List Nat := List.replicate 64 1 ++ [2]

/-- C7 counterexample: storing a 65-byte payload does **not** overflow
into the out-of-line buffer — the payload is silently truncated to its
first 64 bytes (`inline_size = 64`), the 65th byte is carried nowhere,
and the out-of-line descriptor stays null. -/
theorem c7_65th_byte_discarded :
    (IpcMessage.new.set_inline_data c7Payload).inline_size = 64 ∧
      (IpcMessage.new.set_inline_data c7Payload).get_inline_data =
        List.replicate 64 1 ∧
      (IpcMessage.new.set_inline_data c7Payload).buffer = 0 ∧
      (IpcMessage.new.set_inline_data c7Payload).buffer_size = 0 ∧
      c7Payload ≠ List.replicate 64 1 := by
  refine ⟨by decide, by decide, by decide, by decide, by decide⟩

/-- C7 (amended): a payload of up to 64 bytes is stored fully inline
with `inline_size` equal to its length (64 bytes fit exactly); a longer
payload is truncated to its first 64 bytes with `inline_size = 64`, the
excess bytes being discarded while the out-of-line buffer descriptor is
left untouched. -/
theorem c7_inline_truncation (m : IpcMessage) (data : List Nat)
    (hm : m.inline_data.length = 64) :
    (m.set_inline_data data).inline_size = min data.length 64 ∧
      (m.set_inline_data data).get_inline_data = data.take 64 ∧
      (m.set_inline_data data).buffer = m.buffer ∧
      (m.set_inline_data data).buffer_size = m.buffer_size := by
  refine ⟨rfl, ?_, rfl, rfl⟩
  simp only [IpcMessage.set_inline_data, IpcMessage.get_inline_data]
  rcases Nat.le_total data.length 64 with hle | hle
  · have h1 : min data.length 64 = data.length := by omega
    rw [h1, List.take_append_eq_append_take]
    simp [List.length_take, hle]
  · have h1 : min data.length 64 = 64 := by omega
    have hd : m.inline_data.drop 64 = [] := by
      rw [List.drop_eq_nil_iff]
      omega
    rw [h1, List.take_append_eq_append_take, hd]
    simp

/-- Witness for `c7_inline_truncation`: a fresh message and the
65-byte payload `c7Payload`. -/
theorem c7_inline_truncation_witness :
    (IpcMessage.new.set_inline_data c7Payload).inline_size =
        min c7Payload.length 64 ∧
      (IpcMessage.new.set_inline_data c7Payload).get_inline_data =
        c7Payload.take 64 ∧
      (IpcMessage.new.set_inline_data c7Payload).buffer = IpcMessage.new.buffer ∧
      (IpcMessage.new.set_inline_data c7Payload).buffer_size =
        IpcMessage.new.buffer_size :=
  c7_inline_truncation IpcMessage.new c7Payload (by decide)

end Scarlett.Ipc

/-! ## VFS file descriptors (`src/services/vfs/src/vfs.rs`)

The fixed 256-slot FD table and `allocate_fd`, the first-fit scan that
marks the first unused slot used and returns its index, or returns
`None` when every slot is used (surfaced by the VFS service as its
out-of-file-descriptors error, `VfsError::TooManyOpenFiles`). -/

namespace Scarlett.Vfs

structure FdEntry where
  used : Bool
  fs_id : Nat
  file_data : Nat
  position : Nat
  flags : Nat
  deriving DecidableEq, Repr

def MAX_FDS : Nat := 256

def emptyFd : FdEntry :=
  { used := false, fs_id := 0, file_data := 0, position := 0, flags := 0 }

def vfs_init_table : List FdEntry := List.replicate MAX_FDS emptyFd

/-- Rust `allocate_fd`: first-fit over the table; returns the allocated index
and the updated table. -/
def allocate_fd : List FdEntry → Option Nat × List FdEntry
  | [] => (none, [])
  | e :: es =>
    if e.used then
      let (r, es') := allocate_fd es
      (r.map (· + 1), e :: es')
    else
      (some 0, { e with used := true } :: es)

def free_fd (t : List FdEntry) (fd : Nat) : List FdEntry :=
  if fd < t.length then
    Scarlett.listModify (fun e => { e with used := false }) fd t
  else t

theorem allocate_fd_spec (t : List FdEntry) :
    (Scarlett.firstIdx (fun e => !e.used) t = none → allocate_fd t = (none, t)) ∧
      (∀ i, Scarlett.firstIdx (fun e => !e.used) t = some i →
        (allocate_fd t).1 = some i ∧
          (allocate_fd t).2 =
            Scarlett.listModify (fun e => { e with used := true }) i t) := by
  induction t with
  | nil =>
    constructor
    · intro _; rfl
    · intro i h; simp [Scarlett.firstIdx] at h
  | cons e es ih =>
    by_cases hu : e.used
    · constructor
      · intro h
        simp [Scarlett.firstIdx, hu] at h
        have := ih.1 h
        simp [allocate_fd, hu, this]
      · intro i h
        simp [Scarlett.firstIdx, hu] at h
        obtain ⟨i', hi', rfl⟩ := h
        have := ih.2 i' hi'
        simp [allocate_fd, hu, this.1, this.2, Scarlett.listModify]
    · constructor
      · intro h
        simp [Scarlett.firstIdx, hu] at h
      · intro i h
        simp [Scarlett.firstIdx, hu] at h
        subst h
        simp [allocate_fd, hu, Scarlett.listModify]

/-- C9: FD allocation over the 256-slot table is first-fit.  If some
slot is unused, allocation succeeds and returns the lowest unused
index, marking exactly that slot used; if every slot is used it fails
(`None`, which the service reports as its too-many-open-files error)
and the table is unchanged. -/
theorem c9_fd_alloc_first_fit (t : List FdEntry) (ht : t.length = 256) :
    ((∃ e ∈ t, e.used = false) →
      ∃ i, (allocate_fd t).1 = some i ∧ i < 256 ∧
        (t.getD i emptyFd).used = false ∧
        (∀ j, j < i → (t.getD j emptyFd).used = true) ∧
        (allocate_fd t).2 =
          Scarlett.listModify (fun e => { e with used := true }) i t) ∧
      ((∀ e ∈ t, e.used = true) → allocate_fd t = (none, t)) := by
  constructor
  · intro hex
    have hne : Scarlett.firstIdx (fun e => !e.used) t ≠ none := by
      intro hnone
      rw [Scarlett.firstIdx_eq_none] at hnone
      obtain ⟨e, he, hu⟩ := hex
      have := hnone e he
      simp [hu] at this
    cases hidx : Scarlett.firstIdx (fun e => !e.used) t with
    | none => exact absurd hidx hne
    | some i =>
      obtain ⟨h1, h2, h3⟩ := Scarlett.firstIdx_some_spec emptyFd hidx
      obtain ⟨ha, hb⟩ := (allocate_fd_spec t).2 i hidx
      refine ⟨i, ha, by omega, by simpa using h2, ?_, hb⟩
      intro j hj
      have := h3 j hj
      simpa using this
  · intro hall
    apply (allocate_fd_spec t).1
    rw [Scarlett.firstIdx_eq_none]
    intro e he
    simp [hall e he]

/-- A table with slots 0–254 in use and slot 255 free. -/
def c9Table : List FdEntry :=
  List.replicate 255 { emptyFd with used := true } ++ [emptyFd]

/-- Witness for `c9_fd_alloc_first_fit`: with 255 of the 256 slots in
use, allocation still succeeds (first-fit lands on slot 255); the
all-used half of the theorem is instantiated too. -/
theorem c9_fd_alloc_first_fit_witness :
    (∃ i, (allocate_fd c9Table).1 = some i ∧ i < 256 ∧
        (c9Table.getD i emptyFd).used = false ∧
        (∀ j, j < i → (c9Table.getD j emptyFd).used = true) ∧
        (allocate_fd c9Table).2 =
          Scarlett.listModify (fun e => { e with used := true }) i c9Table) ∧
      ((∀ e ∈ List.replicate 256 { emptyFd with used := true }, e.used = true) →
        allocate_fd (List.replicate 256 { emptyFd with used := true }) =
          (none, List.replicate 256 { emptyFd with used := true })) :=
  ⟨(c9_fd_alloc_first_fit c9Table (by decide)).1 (by decide),
   (c9_fd_alloc_first_fit (List.replicate 256 { emptyFd with used := true })
      (by decide)).2⟩

end Scarlett.Vfs

/-! ## ARP cache (`src/services/network/src/arp.rs`)

A 256-entry cache.  `arp_cache_add` first scans for a valid entry with
the same IP and updates its MAC in place; otherwise it fills the first
free slot (bumping the counter); when the cache is full it evicts the
entry with the smallest timestamp (first minimum, the scan starting
from index 0).  `arp_lookup` returns the MAC of the first valid entry
with the queried IP. -/

namespace Scarlett.Arp

structure ArpCacheEntry where
  ip : Nat
  mac : List Nat
  timestamp : Nat
  valid : Bool
  deriving DecidableEq, Repr

def ARP_CACHE_SIZE : Nat := 256

def emptyArpEntry : ArpCacheEntry :=
  { ip := 0, mac := [0, 0, 0, 0, 0, 0], timestamp := 0, valid := false }

structure ArpCache where
  entries : List ArpCacheEntry
  count : Nat
  deriving DecidableEq, Repr

/-- The cache as (re)initialised by `arp_init`: every slot invalid. -/
def arp_init_cache : ArpCache :=
  { entries := List.replicate ARP_CACHE_SIZE emptyArpEntry, count := 0 }

/-- The eviction scan: running minimum of the timestamps, first
minimum wins (`<` comparison), starting from `best = 0`. -/
def oldestFrom : List ArpCacheEntry → Nat → Nat → Nat → Nat
  | [], _, best, _ => best
  | e :: es, i, best, bestTime =>
    if e.timestamp < bestTime then oldestFrom es (i + 1) i e.timestamp
    else oldestFrom es (i + 1) best bestTime

def arp_cache_add (c : ArpCache) (ip : Nat) (mac : List Nat) : ArpCache :=
  match Scarlett.firstIdx (fun e => e.valid && (e.ip == ip)) c.entries with
  | some i =>
    { c with
      entries :=
        Scarlett.listModify (fun e => { e with mac := mac, timestamp := 0 }) i
          c.entries }
  | none =>
    match Scarlett.firstIdx (fun e => !e.valid) c.entries with
    | some i =>
      { entries :=
          Scarlett.listModify
            (fun _ => { ip := ip, mac := mac, timestamp := 0, valid := true }) i
            c.entries,
        count := c.count + 1 }
    | none =>
      match c.entries with
      | [] => c
      | e0 :: rest =>
        let oi := oldestFrom rest 1 0 e0.timestamp
        { c with
          entries :=
            Scarlett.listModify
              (fun _ => { ip := ip, mac := mac, timestamp := 0, valid := true })
              oi c.entries }

def arp_lookup (c : ArpCache) (ip : Nat) : Option (List Nat) :=
  (c.entries.find? (fun e => e.valid && (e.ip == ip))).map (·.mac)

/-- At most one valid entry per IP, stated pairwise along the slot
list. -/
def UniqValidIp (l : List ArpCacheEntry) : Prop :=
  l.Pairwise fun a b => a.valid = true → b.valid = true → a.ip ≠ b.ip

theorem mem_listModify {f : α → α} {i : Nat} {l : List α} {b : α}
    (hb : b ∈ Scarlett.listModify f i l) : ∃ c ∈ l, b = c ∨ b = f c := by
  induction l generalizing i with
  | nil => simp [Scarlett.listModify] at hb
  | cons a as ih =>
    cases i with
    | zero =>
      simp only [Scarlett.listModify, List.mem_cons] at hb
      rcases hb with hb | hb
      · exact ⟨a, by simp, Or.inr hb⟩
      · exact ⟨b, by simp [hb], Or.inl rfl⟩
    | succ i' =>
      simp only [Scarlett.listModify, List.mem_cons] at hb
      rcases hb with hb | hb
      · exact ⟨a, by simp, Or.inl hb⟩
      · obtain ⟨c, hc, hbc⟩ := ih hb
        exact ⟨c, by simp [hc], hbc⟩

theorem pairwise_listModify {R : α → α → Prop} (f : α → α) (i : Nat)
    {l : List α} (hl : l.Pairwise R)
    (h : ∀ a ∈ l, ∀ b ∈ l, R a b → R a (f b) ∧ R (f a) b) :
    (Scarlett.listModify f i l).Pairwise R := by
  induction l generalizing i with
  | nil => simp [Scarlett.listModify]
  | cons a as ih =>
    rw [List.pairwise_cons] at hl
    obtain ⟨ha, has⟩ := hl
    cases i with
    | zero =>
      rw [Scarlett.listModify, List.pairwise_cons]
      refine ⟨?_, has⟩
      intro b hb
      exact (h a (List.mem_cons_self a as) b (List.mem_cons_of_mem a hb)
        (ha b hb)).2
    | succ i' =>
      rw [Scarlett.listModify, List.pairwise_cons]
      constructor
      · intro b hb
        obtain ⟨c, hc, hbc⟩ := mem_listModify hb
        rcases hbc with h1 | h1
        · rw [h1]; exact ha c hc
        · rw [h1]
          exact (h a (List.mem_cons_self a as) c (List.mem_cons_of_mem a hc)
            (ha c hc)).1
      · exact ih i' has fun x hx y hy =>
          h x (List.mem_cons_of_mem a hx) y (List.mem_cons_of_mem a hy)

/-- C10: the ARP cache keeps at most one valid entry per IP.  The
initial cache satisfies the invariant; `arp_cache_add` preserves it
(through all three branches: in-place update, free-slot fill, and
eviction); and when a valid entry for the IP already exists the add is
an in-place MAC/timestamp update of exactly that slot — no second entry
is inserted.  `arp_lookup` reads the cache without modifying it, so a
lookup is resolved by the unique valid entry for its IP. -/
theorem c10_arp_cache_unique_ip :
    UniqValidIp arp_init_cache.entries ∧
      (∀ (c : ArpCache) (ip : Nat) (mac : List Nat),
        UniqValidIp c.entries → UniqValidIp (arp_cache_add c ip mac).entries) ∧
      (∀ (c : ArpCache) (ip : Nat) (mac : List Nat) (i : Nat),
        Scarlett.firstIdx (fun e => e.valid && (e.ip == ip)) c.entries = some i →
          (arp_cache_add c ip mac).entries =
            Scarlett.listModify
              (fun e => { e with mac := mac, timestamp := 0 }) i c.entries) := by
  refine ⟨?_, ?_, ?_⟩
  · have hrep : ∀ n, UniqValidIp (List.replicate n emptyArpEntry) := by
      intro n
      induction n with
      | zero => simp [UniqValidIp]
      | succ k ihk =>
        rw [List.replicate_succ, UniqValidIp, List.pairwise_cons]
        refine ⟨?_, ihk⟩
        intro b hb
        rw [List.eq_of_mem_replicate hb]
        intro hv
        simp [emptyArpEntry] at hv
    exact hrep ARP_CACHE_SIZE
  · intro c ip mac hu
    unfold arp_cache_add
    cases h1 : Scarlett.firstIdx (fun e => e.valid && (e.ip == ip)) c.entries with
    | some i =>
      apply pairwise_listModify _ _ hu
      intro a _ b _ hr
      constructor
      · intro hav hbv; exact hr hav hbv
      · intro hav hbv; exact hr hav hbv
    | none =>
      have hfree : ∀ e ∈ c.entries, e.valid = true → e.ip ≠ ip := by
        intro e he hv
        have := (Scarlett.firstIdx_eq_none).mp h1 e he
        simp [hv] at this
        simpa using this
      cases h2 : Scarlett.firstIdx (fun e => !e.valid) c.entries with
      | some i =>
        apply pairwise_listModify _ _ hu
        intro a haM b hbM _
        constructor
        · intro hav _
          exact fun hip => hfree a haM hav hip
        · intro _ hbv
          exact fun hip => hfree b hbM hbv hip.symm
      | none =>
        cases he : c.entries with
        | nil => simpa [he] using hu
        | cons e0 rest =>
          rw [he] at hu
          apply pairwise_listModify _ _ hu
          intro a haM b hbM _
          constructor
          · intro hav _
            exact fun hip => hfree a (he ▸ haM) hav hip
          · intro _ hbv
            exact fun hip => hfree b (he ▸ hbM) hbv hip.symm
  · intro c ip mac i h
    unfold arp_cache_add
    rw [h]

/-- Concrete cache for the C10 witness: one valid entry for IP 5 in
slot 0, two free slots. -/
def c10Cache : ArpCache :=
  { entries :=
      [{ ip := 5, mac := [1, 1, 1, 1, 1, 1], timestamp := 0, valid := true },
        emptyArpEntry, emptyArpEntry],
    count := 1 }

/-- Witness for `c10_arp_cache_unique_ip`: adding a new MAC for IP 5 to
`c10Cache` keeps the invariant, and it is an in-place update of slot
0. -/
theorem c10_arp_cache_unique_ip_witness :
    UniqValidIp (arp_cache_add c10Cache 5 [2, 2, 2, 2, 2, 2]).entries ∧
      (arp_cache_add c10Cache 5 [2, 2, 2, 2, 2, 2]).entries =
        Scarlett.listModify
          (fun e => { e with mac := [2, 2, 2, 2, 2, 2], timestamp := 0 }) 0
          c10Cache.entries :=
  ⟨c10_arp_cache_unique_ip.2.1 c10Cache 5 [2, 2, 2, 2, 2, 2]
      (by simp [UniqValidIp, c10Cache, emptyArpEntry, List.pairwise_cons]),
   c10_arp_cache_unique_ip.2.2 c10Cache 5 [2, 2, 2, 2, 2, 2] 0 (by decide)⟩

end Scarlett.Arp

/-! ## DNS name encoding (`src/services/network/src/dns.rs`)

`encode_domain_name` splits the domain on `'.'` (byte 46) and writes
each label as a length byte followed by the label bytes, then a zero
terminator; a label longer than 63 bytes makes it return the error
length 0, modelled as `none`.  `decode_domain_name` walks the packet
from the given offset: length byte 0 ends the name, a byte with the
two top bits set is a compression pointer (at most 10 jumps), any other
length byte introduces a label that is appended to the output buffer,
preceded by a dot when the buffer is nonempty and truncated to the
buffer capacity `cap`.  Out-of-bounds indexing (a Rust panic) and
running forever (the post-jump loop never advances the offset) are both
modelled as `none`; the result is the buffer contents paired with the
offset just past the name. -/

namespace Scarlett.Dns

/-- The label-writing loop of the encoder plus the terminator. -/
def encodeLabels : List (List Nat) → Option (List Nat)
  | [] => some [0]
  | l :: ls =>
    if l.length > 63 then none
    else (encodeLabels ls).map fun rest => l.length :: (l ++ rest)

def encode_domain_name (domain : List Nat) : Option (List Nat) :=
  encodeLabels (domain.splitOn 46)

/-- One loop of the decoder, fuelled.  The Rust loop carries
`(offset, jumped, jump_count, buf_offset)`; `buf` is the written prefix
of the output buffer (its length is `buf_offset`, bounded by `cap`). -/
def decodeGo (packet : List Nat) (cap start_offset : Nat) :
    Nat → Nat → Bool → Nat → List Nat → Option (List Nat × Nat)
  | 0, _, _, _, _ => none
  | fuel + 1, offset, jumped, jump_count, buf =>
    if jump_count > 10 then some ([], start_offset)
    else
      match packet[offset]? with
      | none => none
      | some len =>
        if len = 0 then
          some (buf, if jumped then start_offset + 2 else offset + 1)
        else if len &&& 0xC0 = 0xC0 then
          let offset2 := if jumped then offset else offset + 2
          match packet[offset2 + 1]? with
          | none => none
          | some b =>
            decodeGo packet cap start_offset fuel
              (((len &&& 0x3F) <<< 8) ||| b) true (jump_count + 1) buf
        else
          match (if buf.length > 0 then
              (if buf.length < cap then some (buf ++ [46]) else none)
            else some buf) with
          | none => none
          | some buf1 =>
            let label_len := min len (cap - buf1.length)
            if offset + 1 + label_len ≤ packet.length then
              decodeGo packet cap start_offset fuel
                (if jumped then offset else offset + len + 1) jumped jump_count
                (buf1 ++ (packet.drop (offset + 1)).take label_len)
            else none

def decode_domain_name (packet : List Nat) (offset cap : Nat) :
    Option (List Nat × Nat) :=
  decodeGo packet cap offset (packet.length + 12) offset false 0 []

/-- The byte string `encodeLabels` produces when every label fits. -/
def encBody : List (List Nat) → List Nat
  | [] => [0]
  | l :: ls => l.length :: (l ++ encBody ls)

/-- Labels each preceded by a dot separator. -/
def withSeps : List (List Nat) → List Nat
  | [] => []
  | l :: ls => 46 :: (l ++ withSeps ls)

/-- The buffer contents after appending the labels `ls` to `buf`
(first label undotted when `buf` is empty). -/
def joinFrom (buf : List Nat) (ls : List (List Nat)) : List Nat :=
  match buf, ls with
  | [], l :: ls' => l ++ withSeps ls'
  | _, _ => buf ++ withSeps ls

theorem joinFrom_nil_right (buf : List Nat) : joinFrom buf [] = buf := by
  cases buf <;> simp [joinFrom, withSeps]

theorem joinFrom_nil_cons (l : List Nat) (ls' : List (List Nat)) :
    joinFrom [] (l :: ls') = l ++ withSeps ls' := rfl

theorem joinFrom_cons_left (x : Nat) (xs : List Nat) (ls : List (List Nat)) :
    joinFrom (x :: xs) ls = (x :: xs) ++ withSeps ls := rfl

theorem encodeLabels_eq {ls : List (List Nat)} (h : ∀ l ∈ ls, l.length ≤ 63) :
    encodeLabels ls = some (encBody ls) := by
  induction ls with
  | nil => rfl
  | cons l ls' ih =>
    have hl : ¬ l.length > 63 := by
      have := h l (by simp)
      omega
    rw [encodeLabels, if_neg hl, ih fun x hx => h x (by simp [hx])]
    rfl

theorem encBody_cons_length (l : List Nat) (ls' : List (List Nat)) :
    (encBody (l :: ls')).length = l.length + (encBody ls').length + 1 := by
  simp [encBody]

theorem encBody_length_pos (ls : List (List Nat)) : 1 ≤ (encBody ls).length := by
  cases ls <;> simp [encBody]

theorem encBody_length_ge (ls : List (List Nat)) :
    ls.length + 1 ≤ (encBody ls).length := by
  induction ls with
  | nil => simp [encBody]
  | cons l ls' ih => simp [encBody]; omega

theorem land_c0_of_le {n : Nat} (h : n ≤ 63) : n &&& 0xC0 = 0 := by
  interval_cases n <;> decide

theorem decodeGo_spec (ls : List (List Nat)) :
    ∀ (packet rest buf : List Nat) (offset fuel cap start : Nat),
      (∀ l ∈ ls, 1 ≤ l.length ∧ l.length ≤ 63) →
      packet.drop offset = encBody ls ++ rest →
      ls.length + 1 ≤ fuel →
      (joinFrom buf ls).length ≤ cap →
      decodeGo packet cap start fuel offset false 0 buf =
        some (joinFrom buf ls, offset + (encBody ls).length) := by
  induction ls with
  | nil =>
    intro packet rest buf offset fuel cap start _ hdrop hfuel _
    obtain ⟨f, rfl⟩ : ∃ f, fuel = f + 1 := ⟨fuel - 1, by omega⟩
    have hoff : packet[offset]? = some 0 := by
      have h0 := List.getElem?_drop packet offset 0
      rw [hdrop] at h0
      simpa [encBody] using h0.symm
    simp [decodeGo, hoff, joinFrom_nil_right, encBody]
  | cons l ls' ih =>
    intro packet rest buf offset fuel cap start hlab hdrop hfuel hcap
    obtain ⟨f, rfl⟩ : ∃ f, fuel = f + 1 := ⟨fuel - 1, by omega⟩
    obtain ⟨hl1, hl63⟩ := hlab l (by simp)
    have hlab' : ∀ x ∈ ls', 1 ≤ x.length ∧ x.length ≤ 63 :=
      fun x hx => hlab x (by simp [hx])
    have hdropS : packet.drop offset = l.length :: (l ++ (encBody ls' ++ rest)) := by
      rw [hdrop]
      simp [encBody]
    have hoff : packet[offset]? = some l.length := by
      have h0 := List.getElem?_drop packet offset 0
      rw [hdropS] at h0
      simpa using h0.symm
    have hlen0 : ¬ l.length = 0 := by omega
    have hc0 : ¬ (l.length &&& 0xC0 = 0xC0) := by
      rw [land_c0_of_le hl63]
      decide
    have hdrop1 : packet.drop (offset + 1) = l ++ (encBody ls' ++ rest) := by
      have hdd := List.drop_drop 1 offset packet
      rw [hdropS] at hdd
      simpa using hdd.symm
    have htake : (packet.drop (offset + 1)).take l.length = l := by
      rw [hdrop1]
      exact List.take_left l _
    have hlendrop : packet.length - offset =
        l.length + (encBody ls').length + 1 + rest.length := by
      have hc := congrArg List.length hdrop
      rw [List.length_drop] at hc
      simpa [encBody_cons_length, Nat.add_assoc, Nat.add_comm, Nat.add_left_comm]
        using hc
    have hoffle : offset + 1 + l.length ≤ packet.length := by
      have h1 := encBody_length_pos ls'
      omega
    have hdrop' : packet.drop (offset + l.length + 1) = encBody ls' ++ rest := by
      have hdd := List.drop_drop l.length (offset + 1) packet
      rw [hdrop1, List.drop_left] at hdd
      rw [show offset + l.length + 1 = offset + 1 + l.length by omega]
      exact hdd.symm
    have hfuel' : ls'.length + 1 ≤ f := by
      simp at hfuel
      omega
    have harith : offset + l.length + 1 + (encBody ls').length =
        offset + (encBody (l :: ls')).length := by
      rw [encBody_cons_length]
      omega
    cases buf with
    | nil =>
      have hcapS : l.length + (withSeps ls').length ≤ cap := by
        have hc := hcap
        rw [joinFrom_nil_cons] at hc
        simpa using hc
      have hmin : min l.length cap = l.length := by omega
      have hcap' : (joinFrom l ls').length ≤ cap := by
        cases l with
        | nil => simp at hl1
        | cons x xs =>
          rw [joinFrom_cons_left]
          simp at hcapS ⊢
          omega
      have hih := ih packet rest l (offset + l.length + 1) f cap start
        hlab' hdrop' hfuel' hcap'
      have hjf : joinFrom l ls' = joinFrom [] (l :: ls') := by
        cases l with
        | nil => simp at hl1
        | cons x xs => rw [joinFrom_cons_left, joinFrom_nil_cons]
      rw [hjf, harith] at hih
      simp only [decodeGo, hoff]
      simp [hlen0, hc0, hmin, hoffle, htake, hih]
    | cons b bs =>
      have hcapS : bs.length + 1 + 1 + l.length + (withSeps ls').length ≤ cap := by
        have hc := hcap
        rw [joinFrom_cons_left] at hc
        simp [withSeps] at hc
        omega
      have hblt : bs.length + 1 < cap := by omega
      have hmin : min l.length (cap - (bs.length + 1 + 1)) = l.length := by
        omega
      have hcap' : (joinFrom (b :: (bs ++ 46 :: l)) ls').length ≤ cap := by
        rw [joinFrom_cons_left]
        simp
        omega
      have hih := ih packet rest (b :: (bs ++ 46 :: l))
        (offset + l.length + 1) f cap start hlab' hdrop' hfuel' hcap'
      have hjf : joinFrom (b :: (bs ++ 46 :: l)) ls' =
          joinFrom (b :: bs) (l :: ls') := by
        rw [joinFrom_cons_left, joinFrom_cons_left]
        simp [withSeps]
      rw [hjf, harith] at hih
      simp only [decodeGo, hoff]
      simp [hlen0, hc0, hblt, hmin, hoffle, htake, List.append_assoc, hih]

theorem withSeps_intercalate (l : List Nat) (ls : List (List Nat)) :
    ([46] : List Nat).intercalate (l :: ls) = l ++ withSeps ls := by
  induction ls generalizing l with
  | nil => simp [List.intercalate, withSeps]
  | cons l2 ls2 ih =>
    have hstep : ([46] : List Nat).intercalate (l :: l2 :: ls2) =
        l ++ 46 :: ([46] : List Nat).intercalate (l2 :: ls2) := by
      simp only [List.intercalate, List.intersperse_cons_cons,
        List.flatten_cons]
      simp
    rw [hstep, ih l2, withSeps]

theorem joinFrom_splitOn (domain : List Nat) :
    joinFrom [] (domain.splitOn 46) = domain := by
  cases hsp : domain.splitOn 46 with
  | nil =>
    exact absurd hsp (by rw [List.splitOn]; exact List.splitOnP_ne_nil _ _)
  | cons l ls =>
    rw [joinFrom_nil_cons, ← withSeps_intercalate, ← hsp,
      List.intercalate_splitOn]

/-- C8: encoding a domain made of dot-separated labels of 1–63 bytes
and decoding the result from offset 0 into a buffer of capacity at
least the domain's length yields the identical byte string (and the
decoder stops exactly at the end of the encoded name). -/
theorem c8_dns_encode_decode (domain : List Nat) (cap : Nat)
    (hlab : ∀ l ∈ domain.splitOn 46, 1 ≤ l.length ∧ l.length ≤ 63)
    (hcap : domain.length ≤ cap) :
    encode_domain_name domain = some (encBody (domain.splitOn 46)) ∧
      decode_domain_name (encBody (domain.splitOn 46)) 0 cap =
        some (domain, (encBody (domain.splitOn 46)).length) := by
  constructor
  · exact encodeLabels_eq fun l hl => (hlab l hl).2
  · rw [decode_domain_name]
    have hspec := decodeGo_spec (domain.splitOn 46)
      (encBody (domain.splitOn 46)) [] [] 0
      ((encBody (domain.splitOn 46)).length + 12) cap 0 hlab (by simp)
      (by have := encBody_length_ge (domain.splitOn 46); omega)
      (by rw [joinFrom_splitOn]; exact hcap)
    rw [hspec, joinFrom_splitOn]
    simp

/-- Witness for `c8_dns_encode_decode`: the domain `"ab.c"`
(bytes `[97, 98, 46, 99]`), buffer capacity 4. -/
theorem c8_dns_encode_decode_witness :
    encode_domain_name [97, 98, 46, 99] =
        some (encBody (([97, 98, 46, 99] : List Nat).splitOn 46)) ∧
      decode_domain_name (encBody (([97, 98, 46, 99] : List Nat).splitOn 46)) 0 4 =
        some ([97, 98, 46, 99],
          (encBody (([97, 98, 46, 99] : List Nat).splitOn 46)).length) :=
  c8_dns_encode_decode [97, 98, 46, 99] 4 (by decide) (by decide)
